import Mathlib

/-!
Verification of the sentinel document-store contract against the C++ binding
layer (`src/bindings/cxx`) and, for the engine behind the C entry points
(absent from the repository), against the specification's description of it.

Shallow embedding conventions:
* C `char*` results that may be `NULL` are `Option String` (`none` = null).
* C++ functions that may throw `SentinelException` return `Except String _`.
* JSON documents are a tagged variant per the spec's data model.
-/

namespace Sentinel

/-- The C error enum `sentinel_error_t`, transcribed from
`src/bindings/cxx/include/sentinel/sentinel.hpp` lines 22-30.  These are the
only error categories that exist at the C boundary. -/
inductive sentinel_error_t where
  | SENTINEL_OK
  | SENTINEL_ERROR_NULL_POINTER
  | SENTINEL_ERROR_INVALID_ARGUMENT
  | SENTINEL_ERROR_IO_ERROR
  | SENTINEL_ERROR_RUNTIME_ERROR
  | SENTINEL_ERROR_JSON_PARSE_ERROR
  | SENTINEL_ERROR_NOT_FOUND
  deriving DecidableEq

/-- Modelled from the spec: the error categories named in spec section 4.5
("Categories: InvalidArgument, IoError, RuntimeError, JsonParseError,
NotFound, Conflict").  This is the spec-side taxonomy, to be compared with
the enum declared by the source header. -/
inductive SpecCategory where
  | InvalidArgument
  | IoError
  | RuntimeError
  | JsonParseError
  | NotFound
  | Conflict
  deriving DecidableEq

/-- The evident name correspondence from the C enum of the source header to
the spec's category taxonomy (spec 4.5 glosses InvalidArgument as
"precondition violation, e.g., null handle", so both `NULL_POINTER` and
`INVALID_ARGUMENT` fall under it); `SENTINEL_OK` is not an error and has no
category. -/
def errorCategory : sentinel_error_t → Option SpecCategory
  | .SENTINEL_OK => none
  | .SENTINEL_ERROR_NULL_POINTER => some .InvalidArgument
  | .SENTINEL_ERROR_INVALID_ARGUMENT => some .InvalidArgument
  | .SENTINEL_ERROR_IO_ERROR => some .IoError
  | .SENTINEL_ERROR_RUNTIME_ERROR => some .RuntimeError
  | .SENTINEL_ERROR_JSON_PARSE_ERROR => some .JsonParseError
  | .SENTINEL_ERROR_NOT_FOUND => some .NotFound

/-- Function `sentinel::get_last_error` from `src/bindings/cxx/src/sentinel.cpp`
lines 209-218.  The argument models the `char*` returned by the C call
`sentinel_get_last_error` (`none` = null pointer). -/
def get_last_error (raw : Option String) : String :=
  match raw with
  | none => "Unknown error"
  | some s => s

/-- The passphrase argument marshalling of the `Store` constructor,
`src/bindings/cxx/src/sentinel.cpp` lines 13-15:
`passphrase.empty() ? nullptr : passphrase.c_str()`
(`none` models the null pointer). -/
def passphraseArg (passphrase : String) : Option String :=
  if passphrase.isEmpty then none else some passphrase

/-- The argument pair the `Store` constructor hands to `sentinel_store_new`. -/
def storeNewArgs (path passphrase : String) : String × Option String :=
  (path, passphraseArg passphrase)

/-! ## `parse_json_array` (`src/bindings/cxx/src/sentinel.cpp` lines 161-207) -/

/-- The quote-stripping step applied to a finished item:
`if (item.size() >= 2 && item.front() == '"' && item.back() == '"')
 item = item.substr(1, item.size() - 2);`. -/
def stripQuotes (item : List Char) : List Char :=
  if 2 ≤ item.length ∧ item.head? = some '"' ∧ item.getLast? = some '"' then
    (item.drop 1).dropLast
  else item

/-- The loop state of `parse_json_array`: accumulated `result`, current
`item`, the `in_string` flag and `prev_char`. -/
structure PJState where
  result : List (List Char)
  item : List Char
  inStr : Bool
  prev : Char
  deriving DecidableEq

/-- One iteration of the character loop of `parse_json_array`
(lines 179-196 of `sentinel.cpp`). -/
def pjStep (st : PJState) (c : Char) : PJState :=
  if c = '"' ∧ st.prev ≠ '\\' then
    { st with inStr := !st.inStr, item := st.item ++ [c], prev := c }
  else if c = ',' ∧ st.inStr = false then
    if st.item ≠ [] then
      { st with result := st.result ++ [stripQuotes st.item], item := [], prev := c }
    else
      { st with prev := c }
  else
    { st with item := st.item ++ [c], prev := c }

/-- The post-loop flush of `parse_json_array` (lines 199-204): append the
last item, quote-stripped, when non-empty. -/
def pjFinish (st : PJState) : List (List Char) :=
  if st.item ≠ [] then st.result ++ [stripQuotes st.item] else st.result

/-- Function `sentinel::parse_json_array` (lines 161-207).  Throwing
`SentinelException` is modelled by `Except.error` carrying the message. -/
def parse_json_array (json_str : String) : Except String (List String) :=
  let cs := json_str.data
  if cs = [] ∨ cs.head? ≠ some '[' ∨ cs.getLast? ≠ some ']' then
    .error ("Invalid JSON array format: " ++ json_str)
  else
    let content := (cs.drop 1).dropLast
    if content = [] then .ok []
    else
      .ok ((pjFinish (content.foldl pjStep ⟨[], [], false, '\x00'⟩)).map
        (fun l => String.mk l))

/-! ## Spec-modelled engine: documents and collections

The document storage/query engine behind the C entry points is not in the
repository (only its C declarations, the C++ wrapper, examples and tests
are); the definitions below are modelled from the spec. -/

/-- Modelled from the spec (section 3, section 9): a Document is "a JSON
value of kind Null, Bool, Number, String, Array, Object", "a tagged variant
... with structural equality". -/
inductive Json where
  | null
  | bool (b : Bool)
  | num (q : Rat)
  | str (s : String)
  | arr (xs : List Json)
  | obj (fields : List (String × Json))

mutual

/-- Structural, type-sensitive equality of JSON values (spec sections 4.3
and 9: "structural equality"; e.g. number 30 is not equal to string "30"). -/
def Json.beq : Json → Json → Bool
  | .null, .null => true
  | .bool a, .bool b => a == b
  | .num a, .num b => a == b
  | .str a, .str b => a == b
  | .arr xs, .arr ys => Json.beqList xs ys
  | .obj fs, .obj gs => Json.beqFields fs gs
  | _, _ => false

/-- Elementwise structural equality of JSON arrays. -/
def Json.beqList : List Json → List Json → Bool
  | [], [] => true
  | x :: xs, y :: ys => Json.beq x y && Json.beqList xs ys
  | _, _ => false

/-- Elementwise structural equality of JSON object field lists. -/
def Json.beqFields : List (String × Json) → List (String × Json) → Bool
  | [], [] => true
  | (k, v) :: fs, (l, w) :: gs => k == l && Json.beq v w && Json.beqFields fs gs
  | _, _ => false

end

/-- Modelled from the spec (section 3): a Collection is a "mapping of
document id (string, unique within the collection) → Document", kept here
as an insertion-ordered association list. -/
structure Coll where
  docs : List (String × Json)

/-- Whether a document id is present in a collection. -/
def hasId (c : Coll) (id : String) : Bool :=
  c.docs.any (fun p => p.1 == id)

/-- Modelled from the spec (section 4.2): `get(id) → Document?`, "absence
is a normal no-value result, never an error"; at the C boundary `none`
is the null document pointer of `sentinel_collection_get`.  The result
type has no error alternative: `get` cannot fail. -/
def cget (c : Coll) (id : String) : Option Json :=
  c.docs.lookup id

/-- Marker for the one failure mode of `insert` (spec section 4.2:
"insert fails ... if id exists"). -/
inductive InsErr where
  | duplicateId
  deriving DecidableEq

/-- Modelled from the spec (sections 3, 4.2): `insert(id, doc)` fails when
the id exists and otherwise appends the document; the returned pair is the
collection state after the call together with the error, if any. -/
def cinsert (c : Coll) (id : String) (d : Json) : Coll × Option InsErr :=
  if hasId c id then (c, some .duplicateId)
  else (⟨c.docs ++ [(id, d)]⟩, none)

/-- Modelled from the spec (sections 3, 4.2): `upsert(id, doc) → was_insert`,
"total function over existence" — replace in place when the id exists,
append otherwise; the Bool is `was_insert`. -/
def cupsert (c : Coll) (id : String) (d : Json) : Coll × Bool :=
  if hasId c id then
    (⟨c.docs.map (fun p => if p.1 == id then (p.1, d) else p)⟩, false)
  else (⟨c.docs ++ [(id, d)]⟩, true)

/-- Operation `count()` — the number of documents in the collection. -/
def ccount (c : Coll) : Nat :=
  c.docs.length

/-! ## Spec-modelled engine: queries -/

/-- Modelled from the spec (section 3): the Filter variants, each carrying
the comparison operand(s). -/
inductive FilterOp where
  | equals (v : Json)
  | notEquals (v : Json)
  | greaterThan (v : Json)
  | greaterOrEqual (v : Json)
  | lessThan (v : Json)
  | lessOrEqual (v : Json)
  | containsStr (sub : String)
  | startsWith (p : String)
  | endsWith (s : String)
  | inList (vs : List Json)
  | existsKey

/-- A single predicate over one document field (spec glossary). -/
structure Filter where
  field : String
  op : FilterOp

/-- Modelled from the spec (section 3): a Query is an ordered list of
Filters (implicit AND), an optional single (field, direction) sort, an
optional limit and an optional offset; per the C builder API a limit or
offset of 0 means absent. -/
structure Query where
  filters : List Filter
  sortSpec : Option (String × Nat)
  limit : Nat
  offset : Nat

/-- Field access used by the evaluator: documents are objects; on a
non-object value every field is missing. -/
def getField (d : Json) (f : String) : Option Json :=
  match d with
  | .obj fields => fields.lookup f
  | _ => none

/-- Whether the first list of characters starts the second. -/
def listStarts : List Char → List Char → Bool
  | [], _ => true
  | _ :: _, [] => false
  | a :: as, b :: bs => a == b && listStarts as bs

/-- List-of-characters containment used for the Contains predicate. -/
def hasSubList (needle hay : List Char) : Bool :=
  match hay with
  | [] => needle.isEmpty
  | _ :: t => listStarts needle hay || hasSubList needle t

/-- Modelled from the spec (section 4.3): relational predicates use numeric
ordering when both operands are numbers, lexicographic when both are
strings; mismatched types mean the document does not match. -/
def relMatch (lt eq : Bool) (fv ov : Json) : Bool :=
  match fv, ov with
  | .num a, .num b => (lt && a < b) || (eq && a == b) || (!lt && !eq && b < a)
  | .str a, .str b => (lt && a < b) || (eq && a == b) || (!lt && !eq && b < a)
  | _, _ => false

/-- Modelled from the spec (section 4.3): predicate semantics of a single
filter against one document.  A missing field never matches any non-Exists
predicate; Exists tests key presence regardless of value. -/
def matchesFilter (fl : Filter) (d : Json) : Bool :=
  match fl.op with
  | .existsKey => (getField d fl.field).isSome
  | op =>
    match getField d fl.field with
    | none => false
    | some fv =>
      match op with
      | .equals v => Json.beq fv v
      | .notEquals v => !Json.beq fv v
      | .greaterThan v => relMatch false false fv v
      | .greaterOrEqual v => relMatch false true fv v || relMatch false false fv v
      | .lessThan v => relMatch true false fv v
      | .lessOrEqual v => relMatch true true fv v || relMatch true false fv v
      | .containsStr sub =>
        match fv with
        | .str s => hasSubList sub.data s.data
        | _ => false
      | .startsWith p =>
        match fv with
        | .str s => listStarts p.data s.data
        | _ => false
      | .endsWith sfx =>
        match fv with
        | .str s => listStarts sfx.data.reverse s.data.reverse
        | _ => false
      | .inList vs => vs.any (fun v => Json.beq fv v)
      | .existsKey => true

/-- A document matches a query when it satisfies every filter (implicit
AND, spec section 4.3). -/
def matchesQuery (q : Query) (d : Json) : Bool :=
  q.filters.all (fun fl => matchesFilter fl d)

/-- Scalar ordering for the sort comparator: numbers by numeric order,
strings lexicographically; values of other or mixed kinds tie (and ties
keep insertion order through stability). -/
def valLe (a b : Json) : Bool :=
  match a, b with
  | .num x, .num y => x ≤ y
  | .str x, .str y => x ≤ y
  | _, _ => true

/-- Modelled from the spec (section 4.3): sort comparator over (id, doc)
pairs for a (field, direction) sort — direction 0 ascending, 1 descending;
documents missing the sort field rank before all documents that have it. -/
def keyLe (field : String) (dir : Nat) (a b : String × Json) : Bool :=
  match getField a.2 field, getField b.2 field with
  | none, _ => true
  | some _, none => false
  | some x, some y => if dir = 0 then valLe x y else valLe y x

/-- Stable insertion into a sorted list: the new element goes before the
first entry it compares `le` to, so earlier-inserted elements win ties. -/
def insertStable (le : α → α → Bool) (x : α) : List α → List α
  | [] => [x]
  | y :: ys => if le x y then x :: y :: ys else y :: insertStable le x ys

/-- Stable sort by the given comparator (ties keep list order). -/
def sortStable (le : α → α → Bool) : List α → List α
  | [] => []
  | x :: xs => insertStable le x (sortStable le xs)

/-- Apply the optional sort of a query; no sort keeps insertion order. -/
def sortDocs (s : Option (String × Nat)) (l : List (String × Json)) :
    List (String × Json) :=
  match s with
  | none => l
  | some (f, dir) => sortStable (keyLe f dir) l

/-- Modelled from the spec (section 4.3): the pagination loop — skip
`off` matches, then emit matches until the limit is exhausted, a limit of
0 meaning no cap. -/
def paginate (off lim : Nat) : List α → List α
  | [] => []
  | x :: xs =>
    match off with
    | o + 1 => paginate o lim xs
    | 0 =>
      match lim with
      | 0 => x :: xs
      | l + 1 => x :: xs.take l

/-- The filtered (id, doc) pairs of a query, in insertion order. -/
def matchPairs (q : Query) (docs : List (String × Json)) :
    List (String × Json) :=
  docs.filter (fun p => matchesQuery q p.2)

/-- Modelled from the spec (section 4.3): query execution — filter, then
sort, then offset, then limit — kept as (id, doc) pairs. -/
def runQueryP (q : Query) (docs : List (String × Json)) :
    List (String × Json) :=
  paginate q.offset q.limit (sortDocs q.sortSpec (matchPairs q docs))

/-- Query execution as observed by the caller: the matching documents in
full, as an ordered sequence (spec section 4.3). -/
def runQuery (q : Query) (docs : List (String × Json)) : List Json :=
  (runQueryP q docs).map Prod.snd

/-- Modelled from the spec (section 4.3): `combine_or(queryA, queryB)` —
the set union by document id of each query's matches against one
collection, duplicates removed; ordered by the first query's sort when it
has one, else insertion order. -/
def runOr (qa qb : Query) (docs : List (String × Json)) :
    List (String × Json) :=
  sortDocs qa.sortSpec
    (docs.filter (fun p => matchesQuery qa p.2 || matchesQuery qb p.2))

/-! ## Spec-modelled engine: asynchronous task dispatcher -/

/-- A terminal callback kind: every task resolves to exactly one of
success or error (spec section 4.4). -/
inductive CbKind where
  | success
  | error
  deriving DecidableEq

/-- Modelled from the spec (sections 3, 4.4): the dispatcher tracks a
monotonically increasing next task id (starting at 1, so issued ids are
nonzero), whether it can still accept work, and the scheduled tasks; a
pending entry carries the task id and whether its operation will succeed. -/
structure Dispatcher where
  nextId : Nat
  accepting : Bool
  pending : List (Nat × Bool)
  deriving DecidableEq

/-- The initial dispatcher: first task id is 1, accepting work. -/
def initDispatcher : Dispatcher :=
  ⟨1, true, []⟩

/-- Modelled from the spec (section 4.4): scheduling returns the task id
immediately — a fresh nonzero id on success, 0 (with the dispatcher
unchanged) when scheduling fails. -/
def schedule (d : Dispatcher) (opOk : Bool) : Nat × Dispatcher :=
  if d.accepting then
    (d.nextId, ⟨d.nextId + 1, d.accepting, d.pending ++ [(d.nextId, opOk)]⟩)
  else (0, d)

/-- Modelled from the spec (section 4.4): running the dispatcher to
quiescence delivers, for each scheduled task, exactly one terminal
callback — success when the operation succeeds, error otherwise. -/
def drain (d : Dispatcher) : List (Nat × CbKind) :=
  d.pending.map (fun p => (p.1, if p.2 then CbKind.success else CbKind.error))

/-- Dispatcher well-formedness: the next id is nonzero, pending ids were
issued before `nextId`, and no two pending tasks share an id. -/
def WFd (d : Dispatcher) : Prop :=
  0 < d.nextId ∧ (∀ i ∈ d.pending.map Prod.fst, i < d.nextId) ∧
    (d.pending.map Prod.fst).Nodup

instance : DecidablePred WFd := fun d => by
  unfold WFd; infer_instance

/-! ## Concrete data for witnesses and examples -/

/-- A small concrete collection used by the witnesses. -/
def collA : Coll :=
  ⟨[("user1", Json.obj [("name", Json.str "Alice"), ("age", Json.num 30)])]⟩

/-- A document with a name and a numeric age, as in the example data of
the repository's query examples. -/
def personDoc (name : String) (age : Nat) : Json :=
  Json.obj [("name", Json.str name), ("age", Json.num age)]

/-- Five documents with distinct ages (the spec's pagination example
shape; ages as in `c_query_example.c`). -/
def fiveDocs : List (String × Json) :=
  [("alice", personDoc "Alice" 28), ("bob", personDoc "Bob" 34),
   ("charlie", personDoc "Charlie" 22), ("diana", personDoc "Diana" 31),
   ("eve", personDoc "Eve" 26)]

/-- Sort ascending by `age`, skip 1, take 2 — no filters. -/
def pageQuery : Query :=
  ⟨[], some ("age", 0), 2, 1⟩

/-- A document with a name and a city, as in the OR example data
(`c_advanced_query_example.c`). -/
def cityDoc (name city : String) : Json :=
  Json.obj [("name", Json.str name), ("city", Json.str city)]

/-- Three documents whose cities are New York, Chicago and Boston. -/
def cityDocs : List (String × Json) :=
  [("u1", cityDoc "A" "New York"), ("u2", cityDoc "B" "Chicago"),
   ("u3", cityDoc "C" "Boston")]

/-- The query `city == "New York"`. -/
def qNewYork : Query :=
  ⟨[⟨"city", .equals (Json.str "New York")⟩], none, 0, 0⟩

/-- The query `city == "Chicago"`. -/
def qChicago : Query :=
  ⟨[⟨"city", .equals (Json.str "Chicago")⟩], none, 0, 0⟩

/-- Every double quote among the characters is immediately preceded by a
backslash, `prev` being the character just before the first one.  This is
the claim's "no embedded unescaped quotes" condition on an element, whose
predecessor context starts at the element's opening quote. -/
def okInsideB (prev : Char) : List Char → Bool
  | [] => true
  | c :: cs => (c != '"' || prev == '\\') && okInsideB c cs

/-- An element rendered as the parser sees it: surrounded by quotes. -/
def quoteElem (s : String) : List Char :=
  '"' :: (s.data ++ ['"'])

/-- The characters between the brackets of an input of the claimed form:
quoted elements joined by commas, no whitespace. -/
def joinElems : List String → List Char
  | [] => []
  | [s] => quoteElem s
  | s :: rest => quoteElem s ++ ',' :: joinElems rest

/-- An input of the claimed form `["s1",...,"sn"]`. -/
def mkInput (ss : List String) : String :=
  String.mk ('[' :: (joinElems ss ++ [']']))

/-! ## Helper lemmas -/

theorem lookup_none_iff_no_key (id : String) :
    ∀ l : List (String × Json),
      l.lookup id = none ↔ l.any (fun p => p.1 == id) = false
  | [] => by simp
  | (k, v) :: t => by
    by_cases h : id = k
    · subst h; simp [List.lookup]
    · have h1 : (id == k) = false := beq_false_of_ne h
      have h2 : (k == id) = false := beq_false_of_ne (Ne.symm h)
      simp [List.lookup, h1, h2, lookup_none_iff_no_key id t]

theorem lookup_append_of_none (id : String) (m : List (String × Json)) :
    ∀ l : List (String × Json), l.lookup id = none →
      (l ++ m).lookup id = m.lookup id
  | [], _ => rfl
  | (k, v) :: t, h => by
    by_cases hk : id = k
    · subst hk; simp [List.lookup] at h
    · have h1 : (id == k) = false := beq_false_of_ne hk
      have ht : t.lookup id = none := by
        simp only [List.lookup, h1] at h; exact h
      simp only [List.cons_append, List.lookup, h1]
      exact lookup_append_of_none id m t ht

/-! ## Claims about collection CRUD -/

/-- Claim C1: for every collection and document id, `get` on an absent id yields
the normal "no value" result (`none`, the null document pointer at the C
boundary) — and conversely; `cget`'s result type has no error case, so
absence is never reported as an error. -/
theorem get_absent_yields_none (c : Coll) (id : String) :
    cget c id = none ↔ hasId c id = false :=
  lookup_none_iff_no_key id c.docs

/-- Claim C2, counterexample: no error value of the C boundary's
`sentinel_error_t` enum maps to the spec's Conflict category — the
declared enum simply has no Conflict member, so no failed insert can
report Conflict across this boundary. -/
theorem no_conflict_category_at_boundary :
    errorCategory .SENTINEL_OK ≠ some SpecCategory.Conflict ∧
    errorCategory .SENTINEL_ERROR_NULL_POINTER ≠ some SpecCategory.Conflict ∧
    errorCategory .SENTINEL_ERROR_INVALID_ARGUMENT ≠ some SpecCategory.Conflict ∧
    errorCategory .SENTINEL_ERROR_IO_ERROR ≠ some SpecCategory.Conflict ∧
    errorCategory .SENTINEL_ERROR_RUNTIME_ERROR ≠ some SpecCategory.Conflict ∧
    errorCategory .SENTINEL_ERROR_JSON_PARSE_ERROR ≠ some SpecCategory.Conflict ∧
    errorCategory .SENTINEL_ERROR_NOT_FOUND ≠ some SpecCategory.Conflict := by
  decide

/-- Claim C2, amended: `insert` on an id already present fails (it reports the
duplicate-id error) and leaves the collection — in particular `count()` —
unchanged. -/
theorem insert_existing_fails_state_unchanged (c : Coll) (id : String)
    (d : Json) (h : hasId c id = true) :
    (cinsert c id d).2 = some InsErr.duplicateId ∧
      (cinsert c id d).1 = c ∧ ccount (cinsert c id d).1 = ccount c := by
  simp [cinsert, h]

/-- Claim C2 witness: inserting an already-present id into a concrete collection
fails and leaves the state unchanged. -/
theorem insert_existing_witness :
    (cinsert collA "user1" Json.null).2 = some InsErr.duplicateId ∧
      (cinsert collA "user1" Json.null).1 = collA ∧
      ccount (cinsert collA "user1" Json.null).1 = ccount collA :=
  insert_existing_fails_state_unchanged collA "user1" Json.null (by decide)

/-- Claim C3: `upsert` is total — it returns a collection and a flag for every
input, never failing for existence reasons — and its `was_insert` flag is
true exactly when the id was absent immediately before the call. -/
theorem upsert_was_insert_iff_absent (c : Coll) (id : String) (d : Json) :
    (cupsert c id d).2 = true ↔ hasId c id = false := by
  by_cases h : hasId c id <;> simp [cupsert, h]

/-- Claim C4: inserting a fresh id and then reading it back with no intervening
writes succeeds and returns a document structurally equal to the one
stored. -/
theorem insert_get_roundtrip (c : Coll) (id : String) (d : Json)
    (h : hasId c id = false) :
    (cinsert c id d).2 = none ∧ cget (cinsert c id d).1 id = some d := by
  have hif : hasId c id ≠ true := by simp [h]
  have hl : c.docs.lookup id = none := (lookup_none_iff_no_key id c.docs).mpr h
  refine ⟨by simp [cinsert, h], ?_⟩
  simp only [cinsert, h, Bool.false_eq_true, if_false, cget]
  rw [lookup_append_of_none id _ c.docs hl]
  simp [List.lookup]

/-- Claim C4 witness: the round trip at a concrete collection, id and document. -/
theorem insert_get_roundtrip_witness :
    (cinsert collA "user2" (Json.str "Bob")).2 = none ∧
      cget (cinsert collA "user2" (Json.str "Bob")).1 "user2" =
        some (Json.str "Bob") :=
  insert_get_roundtrip collA "user2" (Json.str "Bob") (by decide)

/-! ## Claims about the C++ wrapper utilities -/

/-- Claim C8: the wrapper `get_last_error` returns the fixed string
"Unknown error" when the C layer reports no message (null pointer) and the
C layer's message otherwise; consequently a recorded error whose text is
"Unknown error" is indistinguishable from no recorded error. -/
theorem get_last_error_never_absent :
    get_last_error none = "Unknown error" ∧
    (∀ s : String, get_last_error (some s) = s) ∧
    get_last_error (some "Unknown error") = get_last_error none :=
  ⟨rfl, fun _ => rfl, rfl⟩

/-- Claim C9: the `Store` constructor passes an empty passphrase to
`sentinel_store_new` as the null pointer, so `Store(path, "")` hands the C
layer exactly the arguments of a store with no passphrase, and no path can
make the C layer receive `""` as an actual passphrase. -/
theorem empty_passphrase_marshals_to_null :
    (∀ path : String, storeNewArgs path "" = (path, none)) ∧
    (∀ p : String, passphraseArg p = none ↔ p = "") ∧
    (∀ p : String, passphraseArg p ≠ some "") := by
  refine ⟨fun path => rfl, fun p => ?_, fun p => ?_⟩
  · unfold passphraseArg
    by_cases h : p.isEmpty
    · have he := (String.isEmpty_iff p).mp h
      subst he
      have h0 : ("" : String).isEmpty = true := by decide
      simp [h0]
    · have hne : p ≠ "" := fun he => by rw [he] at h; exact h (by decide)
      simp [h, hne]
  · unfold passphraseArg
    by_cases h : p.isEmpty
    · simp [h]
    · have hne : p ≠ "" := fun he => by rw [he] at h; exact h (by decide)
      simp [h, hne]

/-! ## Claims about query pagination (C5) -/

/-- The skip loop of `paginate` is exactly `List.drop`, and the cap is
exactly `List.take`; a limit of 0 applies no cap. -/
theorem paginate_eq_drop_take (off lim : Nat) :
    ∀ l : List α, paginate off lim l =
      if lim = 0 then l.drop off else (l.drop off).take lim := by
  induction off with
  | zero =>
    intro l
    cases l with
    | nil => cases lim <;> simp [paginate]
    | cons x xs => cases lim <;> simp [paginate]
  | succ o ih =>
    intro l
    cases l with
    | nil => cases lim <;> simp [paginate]
    | cons x xs => simpa [paginate] using ih xs

/-- Claim C5: offset and limit are applied, in that order, after filter and
sort — the offset drops the first N entries of the filtered-and-sorted
sequence and the limit then caps the remainder; a zero offset or limit has
no effect; and over 5 documents sorted ascending by age, limit 2 with
offset 1 returns exactly the documents of ranks 2 and 3. -/
theorem pagination_order_and_example :
    (∀ (q : Query) (docs : List (String × Json)),
        runQueryP q docs =
          (if q.limit = 0
            then (sortDocs q.sortSpec (matchPairs q docs)).drop q.offset
            else ((sortDocs q.sortSpec (matchPairs q docs)).drop q.offset).take
              q.limit)) ∧
    (∀ l : List (String × Json), paginate 0 0 l = l) ∧
    runQuery pageQuery fiveDocs =
      [personDoc "Eve" 26, personDoc "Alice" 28] := by
  refine ⟨fun q docs => paginate_eq_drop_take q.offset q.limit _, fun l => ?_, ?_⟩
  · cases l <;> simp [paginate]
  · rfl

/-! ## Claims about OR-combination (C6) -/

theorem insertStable_perm (le : α → α → Bool) (x : α) :
    ∀ l : List α, List.Perm (insertStable le x l) (x :: l)
  | [] => List.Perm.refl _
  | y :: ys => by
    by_cases h : le x y
    · simp [insertStable, h]
    · simp only [insertStable, h, if_false]
      exact ((insertStable_perm le x ys).cons y).trans (List.Perm.swap x y ys)

theorem sortStable_perm (le : α → α → Bool) :
    ∀ l : List α, List.Perm (sortStable le l) l
  | [] => List.Perm.refl _
  | x :: xs =>
    (insertStable_perm le x (sortStable le xs)).trans
      ((sortStable_perm le xs).cons x)

theorem sortDocs_perm (s : Option (String × Nat)) (l : List (String × Json)) :
    List.Perm (sortDocs s l) l := by
  cases s with
  | none => exact List.Perm.refl _
  | some p => exact sortStable_perm (keyLe p.1 p.2) l

/-- Claim C6: when the collection's ids are unique, `combine_or` evaluates to
the set union by document id of the two queries' matches (a pair is in the
result exactly when it is a stored document matching A or B), each id
appears at most once in the result, and with no sort on the first query
the result keeps insertion order. -/
theorem combine_or_is_union (qa qb : Query) (docs : List (String × Json))
    (h : (docs.map Prod.fst).Nodup) :
    (∀ p, p ∈ runOr qa qb docs ↔
        p ∈ docs ∧
          (matchesQuery qa p.2 = true ∨ matchesQuery qb p.2 = true)) ∧
    ((runOr qa qb docs).map Prod.fst).Nodup ∧
    (qa.sortSpec = none →
      runOr qa qb docs =
        docs.filter (fun p => matchesQuery qa p.2 || matchesQuery qb p.2)) := by
  have hperm :
      List.Perm (runOr qa qb docs)
        (docs.filter (fun p => matchesQuery qa p.2 || matchesQuery qb p.2)) :=
    sortDocs_perm _ _
  refine ⟨fun p => ?_, ?_, fun hs => by simp [runOr, hs, sortDocs]⟩
  · rw [hperm.mem_iff, List.mem_filter]
    simp [Bool.or_eq_true]
  · have hsub :
        List.Sublist
          ((docs.filter
            (fun p => matchesQuery qa p.2 || matchesQuery qb p.2)).map Prod.fst)
          (docs.map Prod.fst) :=
      (List.filter_sublist docs).map Prod.fst
    exact ((hperm.map Prod.fst).symm).nodup (h.sublist hsub)

/-- Claim C6 witness: over the three concrete city documents, the OR of the
New York and Chicago queries returns each matching id exactly once. -/
theorem combine_or_witness :
    ((runOr qNewYork qChicago cityDocs).map Prod.fst).Nodup :=
  (combine_or_is_union qNewYork qChicago cityDocs (by decide)).2.1

/-- The concrete OR example: New York OR Chicago over cities
New York, Chicago, Boston returns exactly the first two documents. -/
theorem combine_or_example :
    runOr qNewYork qChicago cityDocs =
      [("u1", cityDoc "A" "New York"), ("u2", cityDoc "B" "Chicago")] := rfl

/-! ## Claims about the async dispatcher (C7) -/

/-- Claim C7: a schedule call returns task id 0 exactly when the dispatcher
could not accept the task (a scheduling failure); every scheduled task in
a well-formed dispatcher receives exactly one terminal callback when the
dispatcher is drained — in particular a successfully scheduled task's
nonzero id occurs exactly once among the delivered callbacks, each of
which is either the success or the error callback by construction. -/
theorem async_single_fire :
    (∀ (d : Dispatcher) (opOk : Bool), 0 < d.nextId →
        ((schedule d opOk).1 = 0 ↔ d.accepting = false)) ∧
    (∀ d : Dispatcher, WFd d → ∀ i ∈ d.pending.map Prod.fst,
        ((drain d).map Prod.fst).count i = 1) ∧
    (∀ (d : Dispatcher) (opOk : Bool), WFd d → d.accepting = true →
        (schedule d opOk).1 ≠ 0 ∧ WFd (schedule d opOk).2 ∧
          ((drain (schedule d opOk).2).map Prod.fst).count
            (schedule d opOk).1 = 1) := by
  have hdrain : ∀ d : Dispatcher,
      (drain d).map Prod.fst = d.pending.map Prod.fst := by
    intro d; simp [drain, List.map_map]
  refine ⟨fun d opOk h => ?_, fun d hw i hi => ?_, fun d opOk hw ha => ?_⟩
  · by_cases hacc : d.accepting <;>
      simp [schedule, hacc, Nat.pos_iff_ne_zero.mp h]
  · rw [hdrain d]
    exact List.count_eq_one_of_mem hw.2.2 hi
  · obtain ⟨hpos, hlt, hnd⟩ := hw
    have hsch : schedule d opOk =
        (d.nextId, ⟨d.nextId + 1, d.accepting,
          d.pending ++ [(d.nextId, opOk)]⟩) := by
      simp [schedule, ha]
    refine ⟨?_, ?_, ?_⟩
    · rw [hsch]; exact Nat.pos_iff_ne_zero.mp hpos
    · rw [hsch]
      refine ⟨Nat.succ_pos _, ?_, ?_⟩
      · intro i hi
        simp only [List.map_append, List.mem_append] at hi
        rcases hi with hi | hi
        · exact Nat.lt_succ_of_lt (hlt i hi)
        · simp at hi; subst hi; exact Nat.lt_succ_self _
      · simp only [List.map_append]
        rw [List.nodup_append]
        refine ⟨hnd, List.nodup_singleton _, ?_⟩
        intro i hi hmem
        simp at hmem
        subst hmem
        exact Nat.lt_irrefl _ (hlt _ hi)
    · rw [hsch, hdrain]
      simp only [List.map_append]
      rw [List.count_append]
      have h0 : (d.pending.map Prod.fst).count d.nextId = 0 :=
        List.count_eq_zero.mpr (fun hmem => Nat.lt_irrefl _ (hlt _ hmem))
      simp [h0]

/-- Claim C7 witness: scheduling on the fresh dispatcher returns the nonzero id
1, zero is returned only when the dispatcher does not accept, and after
the schedule the drained callbacks deliver id 1 exactly once. -/
theorem async_single_fire_witness :
    ((schedule initDispatcher true).1 = 0 ↔
      initDispatcher.accepting = false) ∧
    (schedule initDispatcher true).1 ≠ 0 ∧
    ((drain (schedule initDispatcher true).2).map Prod.fst).count
      (schedule initDispatcher true).1 = 1 :=
  ⟨async_single_fire.1 initDispatcher true (by decide),
   (async_single_fire.2.2 initDispatcher true (by decide) (by decide)).1,
   (async_single_fire.2.2 initDispatcher true (by decide) (by decide)).2.2⟩

/-! ## Claims about `parse_json_array` (C10) -/

theorem foldl_inStr (res : List (List Char)) :
    ∀ (cs item : List Char) (prev : Char), okInsideB prev cs = true →
      cs.foldl pjStep ⟨res, item, true, prev⟩ =
        ⟨res, item ++ cs, true, cs.getLastD prev⟩
  | [], item, prev, _ => by simp
  | c :: cs, item, prev, h => by
    have h' := Bool.and_eq_true_iff.mp h
    have h1 : c ≠ '"' ∨ prev = '\\' := by simpa using h'.1
    have hcond : ¬(c = '"' ∧ prev ≠ '\\') := by
      rcases h1 with hc | hp
      · exact fun hb => hc hb.1
      · exact fun hb => hb.2 hp
    have hstep : pjStep ⟨res, item, true, prev⟩ c =
        ⟨res, item ++ [c], true, c⟩ := by
      unfold pjStep
      rw [if_neg hcond, if_neg (by simp)]
    rw [List.foldl_cons, hstep, foldl_inStr res cs (item ++ [c]) c h'.2,
      List.getLastD_cons]
    simp

theorem foldl_quoteElem (res : List (List Char)) (s : String) (prev : Char)
    (hprev : prev ≠ '\\') (hok : okInsideB '"' s.data = true)
    (hend : s.data.getLast? ≠ some '\\') :
    (quoteElem s).foldl pjStep ⟨res, [], false, prev⟩ =
      ⟨res, quoteElem s, false, '"'⟩ := by
  have hopen : pjStep ⟨res, [], false, prev⟩ '"' =
      ⟨res, ['"'], true, '"'⟩ := by
    unfold pjStep
    rw [if_pos ⟨rfl, hprev⟩]
    rfl
  have hlast : s.data.getLastD '"' ≠ '\\' := by
    rw [List.getLastD_eq_getLast?]
    cases hc : s.data.getLast? with
    | none => decide
    | some x =>
      simp only [Option.getD_some]
      exact fun hx => hend (by rw [hc, hx])
  have hclose : pjStep ⟨res, '"' :: s.data, true, s.data.getLastD '"'⟩ '"' =
      ⟨res, quoteElem s, false, '"'⟩ := by
    unfold pjStep
    rw [if_pos ⟨rfl, hlast⟩]
    simp [quoteElem]
  have hinner : ('"' :: s.data).foldl pjStep ⟨res, [], false, prev⟩ =
      ⟨res, '"' :: s.data, true, s.data.getLastD '"'⟩ := by
    rw [List.foldl_cons, hopen, foldl_inStr res s.data ['"'] '"' hok]
    rfl
  show (('"' :: s.data) ++ ['"']).foldl pjStep ⟨res, [], false, prev⟩ = _
  rw [List.foldl_append, hinner]
  simpa using hclose

theorem stripQuotes_quoteElem (s : String) :
    stripQuotes (quoteElem s) = s.data := by
  have hlen : 2 ≤ (quoteElem s).length := by
    simp [quoteElem]
  have hhead : (quoteElem s).head? = some '"' := rfl
  have hlast : (quoteElem s).getLast? = some '"' := by
    show (('"' :: s.data) ++ ['"']).getLast? = some '"'
    exact List.getLast?_concat _
  rw [stripQuotes, if_pos ⟨hlen, hhead, hlast⟩]
  show (s.data ++ ['"']).dropLast = s.data
  exact List.dropLast_concat

theorem foldl_joinElems (res : List (List Char)) :
    ∀ (ss : List String) (prev : Char), prev ≠ '\\' → ss ≠ [] →
      (∀ s ∈ ss, okInsideB '"' s.data = true ∧ s.data.getLast? ≠ some '\\') →
      pjFinish ((joinElems ss).foldl pjStep ⟨res, [], false, prev⟩) =
        res ++ ss.map String.data
  | [], _, _, hne, _ => absurd rfl hne
  | [s], prev, hprev, _, hall => by
    have hs := hall s (by simp)
    show pjFinish ((quoteElem s).foldl pjStep ⟨res, [], false, prev⟩) = _
    rw [foldl_quoteElem res s prev hprev hs.1 hs.2]
    have hne : quoteElem s ≠ [] := by simp [quoteElem]
    unfold pjFinish
    rw [if_pos hne, stripQuotes_quoteElem]
    rfl
  | s :: t :: ts, prev, hprev, _, hall => by
    have hs := hall s (by simp)
    have hcomma : pjStep ⟨res, quoteElem s, false, '"'⟩ ',' =
        ⟨res ++ [stripQuotes (quoteElem s)], [], false, ','⟩ := by
      unfold pjStep
      rw [if_neg (by simp), if_pos ⟨rfl, rfl⟩,
        if_pos (by simp [quoteElem])]
    show pjFinish ((quoteElem s ++ ',' :: joinElems (t :: ts)).foldl pjStep
        ⟨res, [], false, prev⟩) = _
    rw [List.foldl_append, foldl_quoteElem res s prev hprev hs.1 hs.2,
      List.foldl_cons, hcomma, stripQuotes_quoteElem,
      foldl_joinElems (res ++ [s.data]) (t :: ts) ',' (by decide) (by simp)
        (fun x hx => hall x (by simp [hx]))]
    simp

/-- Claim C10, amended: `parse_json_array` fails exactly when its input is
empty, or its first character is not `[`, or its last character is not
`]`; on `"[]"` it returns the empty vector; and for every input of the
form `["s1",...,"sn"]` with no whitespace between elements, no embedded
unescaped quotes, and no element ending in a backslash, it returns exactly
`[s1, ..., sn]` with the surrounding quotes of each element removed. -/
theorem parse_json_array_spec :
    (∀ s : String, (∃ e, parse_json_array s = .error e) ↔
        (s.data = [] ∨ s.data.head? ≠ some '[' ∨
          s.data.getLast? ≠ some ']')) ∧
    parse_json_array "[]" = .ok [] ∧
    (∀ ss : List String,
        (∀ s ∈ ss, okInsideB '"' s.data = true ∧
          s.data.getLast? ≠ some '\\') →
        parse_json_array (mkInput ss) = .ok ss) := by
  refine ⟨fun s => ?_, rfl, fun ss hall => ?_⟩
  · simp only [parse_json_array]
    by_cases h : s.data = [] ∨ s.data.head? ≠ some '[' ∨
        s.data.getLast? ≠ some ']'
    · rw [if_pos h]
      exact ⟨fun _ => h, fun _ => ⟨_, rfl⟩⟩
    · rw [if_neg h]
      refine ⟨fun ⟨e, he⟩ => ?_, fun hc => absurd hc h⟩
      by_cases hc : (s.data.drop 1).dropLast = []
      · rw [if_pos hc] at he
        exact Except.noConfusion he
      · rw [if_neg hc] at he
        exact Except.noConfusion he
  · cases ss with
    | nil => rfl
    | cons s rest =>
      have hne : joinElems (s :: rest) ≠ [] := by
        cases rest <;> simp [joinElems, quoteElem]
      have hcs : (mkInput (s :: rest)).data =
          '[' :: (joinElems (s :: rest) ++ [']']) := rfl
      simp only [parse_json_array, hcs]
      rw [if_neg (by
        push_neg
        refine ⟨by simp, rfl, ?_⟩
        show (('[' :: joinElems (s :: rest)) ++ [']']).getLast? = some ']'
        exact List.getLast?_concat _)]
      have hcontent : (('[' :: (joinElems (s :: rest) ++ [']'])).drop
          1).dropLast = joinElems (s :: rest) := by
        simp only [List.drop_one, List.tail_cons]
        exact List.dropLast_concat
      rw [hcontent, if_neg hne,
        foldl_joinElems [] (s :: rest) '\x00' (by decide) (by simp) hall]
      have hmapid : ∀ l : List String,
          l.map (fun t => String.mk t.data) = l := by
        intro l
        induction l with
        | nil => rfl
        | cons a as ih =>
          show String.mk a.data :: as.map _ = a :: as
          rw [ih]
      simp only [List.nil_append, List.map_map]
      exact congrArg Except.ok (hmapid (s :: rest))

/-- Claim C10 witness: a concrete input of the claimed form — including a comma
inside an element — parses to exactly its elements, quotes stripped. -/
theorem parse_json_array_spec_witness :
    parse_json_array (mkInput ["ab", "c,d"]) = .ok ["ab", "c,d"] :=
  parse_json_array_spec.2.2 ["ab", "c,d"] (by decide)

/-- Claim C10, counterexample: the input `["a\","b"]` is of the claimed form —
both elements (`a\` and `b`) contain no unescaped quote — yet the parser
returns the single element `a\","b` instead of the claimed `[a\, b]`: the
element-final backslash makes the parser treat the closing quote as
escaped. -/
theorem parse_json_array_counterexample :
    okInsideB '"' ("a\\" : String).data = true ∧
    okInsideB '"' ("b" : String).data = true ∧
    mkInput ["a\\", "b"] = "[\"a\\\",\"b\"]" ∧
    parse_json_array (mkInput ["a\\", "b"]) = .ok ["a\\\",\"b"] ∧
    parse_json_array (mkInput ["a\\", "b"]) ≠ .ok ["a\\", "b"] := by
  refine ⟨by decide, by decide, by decide, rfl, fun h => ?_⟩
  have h2 : (["a\\\",\"b"] : List String) = ["a\\", "b"] :=
    Except.ok.inj ((rfl :
      parse_json_array (mkInput ["a\\", "b"]) =
        .ok ["a\\\",\"b"]).symm.trans h)
  exact absurd h2 (by decide)

end Sentinel
